import Mathlib

/-!
Shallow embedding of the rmutexpp library (src/include/rmutexpp/rmutex.hpp and
src/include/rmutexpp/rmutex_guard.hpp).

The pool of guarded cells (`rmutex<T>` objects) is modelled as a state `MState n α`:
for each cell index `i : Fin n` the state records whether the cell's
`_internal_mutex` is currently locked and the current value of `_internal_data`
(the data type parameter `T` is modelled by `α`).

A `std::unique_lock<std::mutex>` is modelled by `ULock`: the optional mutex it is
associated with (`none` after move-out, mirroring the null mutex pointer of a
moved-from `std::unique_lock`) and whether it currently owns that mutex.

Blocking and throwing are modelled by partiality: an operation that, executed by a
single thread with no concurrent helper, would block forever (locking an already
locked `std::mutex`) or throw (`std::unique_lock::lock`/`try_lock` on a handle that
has no mutex or already owns it) returns `none`.  An operation that returns
`some _` is one that returns in the C++ sense.
-/

namespace Rmutexpp

/-- Global state of a pool of `n` guarded cells: for each cell, the lock bit of its
`_internal_mutex` and the current value of its `_internal_data`. -/
structure MState (n : Nat) (α : Type) where
  locked : Fin n → Bool
  data : Fin n → α

instance {n : Nat} {α : Type} [DecidableEq α] : DecidableEq (MState n α) :=
  fun a b =>
    if h1 : a.locked = b.locked then
      if h2 : a.data = b.data then
        isTrue (by cases a; cases b; cases h1; cases h2; rfl)
      else isFalse (fun hc => h2 (congrArg MState.data hc))
    else isFalse (fun hc => h1 (congrArg MState.locked hc))

/-- A `std::unique_lock<std::mutex>`: the cell index of the associated mutex
(`none` models the null mutex pointer of a moved-from handle) and the
`owns_lock()` flag. -/
structure ULock (n : Nat) where
  mtx : Option (Fin n)
  owns : Bool
deriving DecidableEq

/-- A moved-from `std::unique_lock`: no associated mutex, does not own. -/
def movedULock {n : Nat} : ULock n := ⟨none, false⟩

/-- Release the mutex held by a handle, if it owns one.  This is the effect of
`std::unique_lock`'s destructor and the release step of its move assignment. -/
def uLockRelease {n : Nat} {α : Type} (σ : MState n α) (l : ULock n) : MState n α :=
  match l.mtx, l.owns with
  | some i, true => { σ with locked := Function.update σ.locked i false }
  | _, _ => σ

/-- Release every handle of a list (destruction of a tuple of `unique_lock`s, or
the elementwise release performed by tuple move assignment). -/
def releaseAll {n : Nat} {α : Type} (σ : MState n α) (ls : List (ULock n)) : MState n α :=
  ls.foldl uLockRelease σ

/-! ### rmutex (the guarded cell), src/include/rmutexpp/rmutex.hpp -/

/-- Model of `rmutex_ref<T>` (rmutex.hpp, class rmutex_ref): the reference member
`T& data` (recorded as the index of the cell whose `_internal_data` it refers to)
and the `_internal_lock` unique_lock. -/
structure RRef (n : Nat) where
  dataIdx : Fin n
  lock : ULock n
deriving DecidableEq

/-- Model of `rmutex<T>::lock()` (rmutex.hpp line 254): constructs an `rmutex_ref` on the
cell, acquiring `_internal_mutex` (blocking; `none` models blocking forever when
the mutex is already locked and no other thread will release it). -/
def rmutexLock {n : Nat} {α : Type} (σ : MState n α) (i : Fin n) :
    Option (MState n α × RRef n) :=
  if σ.locked i then none
  else some ({ σ with locked := Function.update σ.locked i true },
             { dataIdx := i, lock := ⟨some i, true⟩ })

/-- Model of `rmutex_ref<T>::try_acquire` (rmutex.hpp lines 348-365), which also implements
`rmutex<T>::try_lock()` (line 268): attempts the lock with `std::try_to_lock`; on
success returns an `rmutex_ref` adopting the lock, otherwise `std::nullopt`.
Always returns (never blocks); the state is returned alongside the optional. -/
def tryAcquire {n : Nat} {α : Type} (σ : MState n α) (i : Fin n) :
    MState n α × Option (RRef n) :=
  if σ.locked i then (σ, none)
  else ({ σ with locked := Function.update σ.locked i true },
        some { dataIdx := i, lock := ⟨some i, true⟩ })

/-- Model of the `rmutex_ref` move constructor (rmutex.hpp line 383): the new object takes the
lock handle and refers to the same data; the source's unique_lock is left
moved-from (its reference member `data` cannot be rebound and keeps referring to
the same cell). -/
def rrefMoveCtor {n : Nat} (r : RRef n) : RRef n × RRef n :=
  ({ dataIdx := r.dataIdx, lock := r.lock },
   { dataIdx := r.dataIdx, lock := movedULock })

/-- Model of `rmutex_ref` move assignment (rmutex.hpp lines 401-409), taken between two
distinct objects (the `this != &other` branch):
`_internal_lock = std::move(other._internal_lock)` releases the target's held
mutex (if any) and adopts the source's handle; then `data = other.data` — since
`data` is a reference member of type `T&`, this assigns the source cell's value
into the cell the target refers to (a reference cannot be rebound).  The target
keeps referring to its original cell. -/
def rrefMoveAssign {n : Nat} {α : Type} (σ : MState n α) (t s : RRef n) :
    MState n α × RRef n × RRef n :=
  let σ₁ := uLockRelease σ t.lock
  let σ₂ := { σ₁ with data := Function.update σ₁.data t.dataIdx (σ₁.data s.dataIdx) }
  (σ₂, { dataIdx := t.dataIdx, lock := s.lock },
       { dataIdx := s.dataIdx, lock := movedULock })

/-- Model of `rmutex` move assignment `operator=(rmutex&&)` (rmutex.hpp lines 213-222)
between cells `t` (target) and `s` (source): no-op on self assignment; otherwise
`std::lock` on both internal mutexes (blocks — `none` — if either is already
locked), then moves the source's data into the target (for the value model the
moved-from source value is retained, as for scalar types). -/
def rmutexMoveAssign {n : Nat} {α : Type} (σ : MState n α) (t s : Fin n) :
    Option (MState n α) :=
  if t = s then some σ
  else if σ.locked t || σ.locked s then none
  else some { σ with data := Function.update σ.data t (σ.data s) }

/-! ### The variadic guard rmutex_guard<Ts...>, src/include/rmutexpp/rmutex_guard.hpp -/

/-- Model of `rmutex_guard<Ts...>` (rmutex_guard.hpp lines 40-296): the tuple `_locks` of
unique_locks (in declaration order), the tuple `_mutex_refs` of references to the
guarded cells (recorded as cell indices, in the order the cells were passed), and
the `_owns_locks` flag. -/
structure MGuard (n : Nat) where
  locks : List (ULock n)
  mutexRefs : List (Fin n)
  ownsLocks : Bool
deriving DecidableEq

/-- The net effect of `std::lock(std::get<Is>(_locks)...)` (used by `lock_all`,
rmutex_guard.hpp lines 66-71) in a single-threaded model: every handle must have
a mutex and not already own it (`unique_lock::lock` throws otherwise — `none`),
and every mutex must be free at the point it is taken (otherwise the call blocks
forever — `none`).  On return all handles own their mutexes. -/
def lockAllGo {n : Nat} {α : Type} :
    MState n α → List (ULock n) → Option (MState n α × List (ULock n))
  | σ, [] => some (σ, [])
  | σ, l :: ls =>
    match l.mtx with
    | none => none
    | some i =>
      if l.owns then none
      else if σ.locked i then none
      else
        match lockAllGo { σ with locked := Function.update σ.locked i true } ls with
        | none => none
        | some (σ', ls') => some (σ', ⟨some i, true⟩ :: ls')

/-- The net effect of `std::try_lock(std::get<Is>(_locks)...)` (used by
`try_lock_all`, rmutex_guard.hpp lines 92-96): handles are tried in order; if one
cannot be acquired, every lock acquired earlier in this call is released again and
the result is failure (`false`).  A handle with no mutex, or one that already
owns, makes `unique_lock::try_lock` throw (`none`).  The call never blocks. -/
def tryLockAllGo {n : Nat} {α : Type} :
    MState n α → List (ULock n) → Option (MState n α × List (ULock n) × Bool)
  | σ, [] => some (σ, [], true)
  | σ, l :: ls =>
    match l.mtx with
    | none => none
    | some i =>
      if l.owns then none
      else if σ.locked i then some (σ, l :: ls, false)
      else
        match tryLockAllGo { σ with locked := Function.update σ.locked i true } ls with
        | none => none
        | some (σ', ls', true) => some (σ', ⟨some i, true⟩ :: ls', true)
        | some (σ', ls', false) =>
          some ({ σ' with locked := Function.update σ'.locked i false }, l :: ls', false)

/-- The deferred unique_locks built by both guard constructors
(`std::unique_lock(mutexes._internal_mutex, std::defer_lock)...`,
rmutex_guard.hpp lines 144 and 163). -/
def freshLocks {n : Nat} (idxs : List (Fin n)) : List (ULock n) :=
  idxs.map (fun i => ⟨some i, false⟩)

/-- The blocking constructor `rmutex_guard(Ts&... mutexes)` (rmutex_guard.hpp
lines 142-147): deferred handles, then `lock_all`, which sets `_owns_locks = true`
after `std::lock` returns. -/
def mkBlocking {n : Nat} {α : Type} (σ : MState n α) (idxs : List (Fin n)) :
    Option (MState n α × MGuard n) :=
  (lockAllGo σ (freshLocks idxs)).map
    (fun p => (p.1, { locks := p.2, mutexRefs := idxs, ownsLocks := true }))

/-- The try constructor `rmutex_guard(std::try_to_lock_t, Ts&... mutexes)`
(rmutex_guard.hpp lines 161-166): deferred handles, then `try_lock_all`, which
sets `_owns_locks` to the outcome of `std::try_lock`. -/
def mkTry {n : Nat} {α : Type} (σ : MState n α) (idxs : List (Fin n)) :
    Option (MState n α × MGuard n × Bool) :=
  (tryLockAllGo σ (freshLocks idxs)).map
    (fun p => (p.1, { locks := p.2.1, mutexRefs := idxs, ownsLocks := p.2.2 }, p.2.2))

/-- Model of `rmutex_guard::lock()` (rmutex_guard.hpp line 253): `lock_all` on the existing
handles; sets `_owns_locks = true` on return. -/
def mguardLock {n : Nat} {α : Type} (σ : MState n α) (g : MGuard n) :
    Option (MState n α × MGuard n) :=
  (lockAllGo σ g.locks).map
    (fun p => (p.1, { g with locks := p.2, ownsLocks := true }))

/-- Model of `rmutex_guard::try_lock()` (rmutex_guard.hpp line 245): `try_lock_all` on the
existing handles; `_owns_locks` is assigned the outcome. -/
def mguardTryLock {n : Nat} {α : Type} (σ : MState n α) (g : MGuard n) :
    Option (MState n α × MGuard n × Bool) :=
  (tryLockAllGo σ g.locks).map
    (fun p => (p.1, { g with locks := p.2.1, ownsLocks := p.2.2 }, p.2.2))

/-- Model of `rmutex_guard::get_data() &` (rmutex_guard.hpp lines 265-271): if
`_owns_locks`, an optional holding `tuple_of_refs` — the tuple of references to
`_mutex_refs`' `_internal_data`, in declaration order — else `std::nullopt`.
The source function only reads `_owns_locks` and forms references, so it is
embedded as a pure function: it modifies neither the guard nor any cell. -/
def mguardGetData {n : Nat} {α : Type} (σ : MState n α) (g : MGuard n) :
    Option (List α) :=
  if g.ownsLocks then some (g.mutexRefs.map σ.data) else none

/-- Model of `rmutex_guard::get_data() const&` (rmutex_guard.hpp lines 283-289): the const
overload, returning const references to the same data under the same condition. -/
def mguardGetDataConst {n : Nat} {α : Type} (σ : MState n α) (g : MGuard n) :
    Option (List α) :=
  if g.ownsLocks then some (g.mutexRefs.map σ.data) else none

/-- Model of the `rmutex_guard` move constructor (rmutex_guard.hpp lines 187-190): the new
guard takes the handles, cell references and flag; the source's unique_locks are
left moved-from and its `_owns_locks` is set to false (its `_mutex_refs`, being
references, keep referring to the same cells). -/
def mguardMoveCtor {n : Nat} (g : MGuard n) : MGuard n × MGuard n :=
  ({ locks := g.locks, mutexRefs := g.mutexRefs, ownsLocks := g.ownsLocks },
   { locks := g.locks.map (fun _ => movedULock), mutexRefs := g.mutexRefs,
     ownsLocks := false })

/-- Model of `_mutex_refs = std::move(other._mutex_refs)` (rmutex_guard.hpp
line 205).  In C++ this statement is ill-formed whenever the surrounding
operator is instantiated: `std::tuple<rmutex<T>&...>` assignment assigns
through the reference elements, and the move form forwards each element as an
lvalue, selecting `rmutex`'s deleted copy assignment, so neither tuple
assignment operator is viable (the repository never calls the guard's move
assignment, which is why it still compiles).  This definition records the one
charitable executable reading — elementwise `rmutex::operator=(rmutex&&)` — so
that relations over guard states can include assignment steps at all; where it
is relied on below it is either a pure over-approximation (extra states beyond
the really reachable ones) or taken in the same-cell case, where every
elementwise assignment is the self-assignment no-op and the state is returned
unchanged.  For different cells even this reading blocks (`none`): the
cell-to-cell `std::lock` hits mutexes the just-adopted source handles still
hold. -/
def mutexRefsAssign {n : Nat} {α : Type} :
    MState n α → List (Fin n) → List (Fin n) → Option (MState n α)
  | σ, [], [] => some σ
  | σ, t :: ts, s :: ss =>
    match rmutexMoveAssign σ t s with
    | none => none
    | some σ' => mutexRefsAssign σ' ts ss
  | _, _, _ => none

/-- Model of `rmutex_guard` move assignment (rmutex_guard.hpp lines 202-210),
taken between two distinct guard objects: `_locks = std::move(other._locks)`
releases every mutex the target's handles own and adopts the source's handles
(the source's handles become moved-from); then the `_mutex_refs` assignment of
line 205 — ill-formed in C++ whenever this operator is instantiated, modelled
charitably by `mutexRefsAssign` (see its documentation); finally the flag
transfers and the source's flag becomes false.  Because of line 205 this
operator cannot actually be compiled when used; this definition
over-approximates it with a defined result (a no-op on the state when target
and source guard the same cells, `none` — blocking — for different cells).
The target's `_mutex_refs` keep referring to the target's original cells
(references cannot be rebound). -/
def mguardMoveAssign {n : Nat} {α : Type} (σ : MState n α) (t s : MGuard n) :
    Option (MState n α × MGuard n × MGuard n) :=
  let σ₁ := releaseAll σ t.locks
  (mutexRefsAssign σ₁ t.mutexRefs s.mutexRefs).map
    (fun σ₂ =>
      (σ₂,
       { locks := s.locks, mutexRefs := t.mutexRefs, ownsLocks := s.ownsLocks },
       { locks := s.locks.map (fun _ => movedULock), mutexRefs := s.mutexRefs,
         ownsLocks := false }))

/-- Destruction of a guard (`~rmutex_guard() = default`, rmutex_guard.hpp
line 177): the member unique_locks are destroyed, releasing every owned mutex. -/
def mguardDestruct {n : Nat} {α : Type} (σ : MState n α) (g : MGuard n) : MState n α :=
  releaseAll σ g.locks

/-! ### The N=1 specialization rmutex_guard<T>, rmutex_guard.hpp lines 309-482 -/

/-- Model of `rmutex_guard<T>` (rmutex_guard.hpp lines 309-482): the single unique_lock
`_lock`, the reference member `_data_ref` (recorded as the index of the cell
whose `_internal_data` it refers to) and the `_owns_lock` flag. -/
structure SGuard (n : Nat) where
  lock : ULock n
  dataRef : Fin n
  ownsLock : Bool
deriving DecidableEq

/-- The blocking constructor `rmutex_guard(T& mutex)` (rmutex_guard.hpp
line 334): `_lock(mutex._internal_mutex)` acquires the mutex (blocking — `none`
when already locked), `_owns_lock` is initialized to true. -/
def sguardMkBlocking {n : Nat} {α : Type} (σ : MState n α) (i : Fin n) :
    Option (MState n α × SGuard n) :=
  if σ.locked i then none
  else some ({ σ with locked := Function.update σ.locked i true },
             { lock := ⟨some i, true⟩, dataRef := i, ownsLock := true })

/-- The try constructor `rmutex_guard(std::try_to_lock_t, T& mutex)`
(rmutex_guard.hpp lines 348-351): `_lock(mutex._internal_mutex,
std::try_to_lock)`, then `_owns_lock = _lock.owns_lock()`.  Never blocks. -/
def sguardMkTry {n : Nat} {α : Type} (σ : MState n α) (i : Fin n) :
    MState n α × SGuard n :=
  if σ.locked i then (σ, { lock := ⟨some i, false⟩, dataRef := i, ownsLock := false })
  else ({ σ with locked := Function.update σ.locked i true },
        { lock := ⟨some i, true⟩, dataRef := i, ownsLock := true })

/-- Model of `rmutex_guard<T>::lock()` (rmutex_guard.hpp lines 436-439): `_lock.lock()`
(throws — `none` — if the handle has no mutex or already owns it, blocks —
`none` — if the mutex is held); then `_owns_lock = true`. -/
def sguardLock {n : Nat} {α : Type} (σ : MState n α) (s : SGuard n) :
    Option (MState n α × SGuard n) :=
  match s.lock.mtx with
  | none => none
  | some i =>
    if s.lock.owns then none
    else if σ.locked i then none
    else some ({ σ with locked := Function.update σ.locked i true },
               { s with lock := ⟨some i, true⟩, ownsLock := true })

/-- Model of `rmutex_guard<T>::try_lock()` (rmutex_guard.hpp line 428):
`_owns_lock = _lock.try_lock()` (throws — `none` — if the handle has no mutex or
already owns it).  Never blocks. -/
def sguardTryLock {n : Nat} {α : Type} (σ : MState n α) (s : SGuard n) :
    Option (MState n α × SGuard n × Bool) :=
  match s.lock.mtx with
  | none => none
  | some i =>
    if s.lock.owns then none
    else if σ.locked i then some (σ, { s with ownsLock := false }, false)
    else some ({ σ with locked := Function.update σ.locked i true },
               { s with lock := ⟨some i, true⟩, ownsLock := true }, true)

/-- Model of `rmutex_guard<T>::get_data() &` (rmutex_guard.hpp lines 451-457): if
`_owns_lock`, an optional holding a reference to `_data_ref`, else
`std::nullopt`.  Pure: the source only reads the flag and forms a reference. -/
def sguardGetData {n : Nat} {α : Type} (σ : MState n α) (s : SGuard n) : Option α :=
  if s.ownsLock then some (σ.data s.dataRef) else none

/-- Model of `rmutex_guard<T>::get_data() const&` (rmutex_guard.hpp lines 469-475): the
const overload, `std::cref(_data_ref)` under the same condition. -/
def sguardGetDataConst {n : Nat} {α : Type} (σ : MState n α) (s : SGuard n) : Option α :=
  if s.ownsLock then some (σ.data s.dataRef) else none

/-- Model of the `rmutex_guard<T>` move constructor (rmutex_guard.hpp lines 372-374): the new
guard takes the handle, refers to the same data, and copies the flag; the
source's unique_lock is left moved-from and its `_owns_lock` set to false. -/
def sguardMoveCtor {n : Nat} (s : SGuard n) : SGuard n × SGuard n :=
  ({ lock := s.lock, dataRef := s.dataRef, ownsLock := s.ownsLock },
   { lock := movedULock, dataRef := s.dataRef, ownsLock := false })

/-- Model of `rmutex_guard<T>` move assignment (rmutex_guard.hpp lines 386-394), taken
between two distinct objects: `_lock = std::move(other._lock)` releases the
target's held mutex (if any) and adopts the source's handle; then
`_data_ref = other._data_ref` — since `_data_ref` is a reference member, this
assigns the source cell's value into the cell the target refers to (the target
keeps referring to its original cell); finally the flag transfers and the
source's flag becomes false. -/
def sguardMoveAssign {n : Nat} {α : Type} (σ : MState n α) (t s : SGuard n) :
    MState n α × SGuard n × SGuard n :=
  let σ₁ := uLockRelease σ t.lock
  let σ₂ := { σ₁ with data := Function.update σ₁.data t.dataRef (σ₁.data s.dataRef) }
  (σ₂, { lock := s.lock, dataRef := t.dataRef, ownsLock := s.ownsLock },
       { lock := movedULock, dataRef := s.dataRef, ownsLock := false })

/-- Destruction of the N=1 guard (`~rmutex_guard() = default`, rmutex_guard.hpp
line 362): the member unique_lock is destroyed, releasing the owned mutex. -/
def sguardDestruct {n : Nat} {α : Type} (σ : MState n α) (s : SGuard n) : MState n α :=
  uLockRelease σ s.lock

/-! ### The public member surface of rmutex_ref and rmutex_guard<T>

Transcribed from the class declarations, for the claims about which operations
each type provides.  Deleted members are recorded with an explicit
"deleted" marker; members of the same name are distinguished by their
ref-qualifier. -/

/-- The public members of `class rmutex_ref` (rmutex.hpp lines 317-464). -/
def rmutexRefPublicMembers : List String :=
  ["rmutex_ref(rmutex<T>&)", "try_acquire", "~rmutex_ref",
   "rmutex_ref(rmutex_ref&&)", "operator=(rmutex_ref&&)",
   "rmutex_ref(const rmutex_ref&) = delete", "operator=(const rmutex_ref&) = delete",
   "operator* &", "operator-> &", "operator T& &",
   "operator* const&", "operator-> const&", "operator const T& const&",
   "operator[]"]

/-- The public members of the specialization `class rmutex_guard<T>`
(rmutex_guard.hpp lines 323-481). -/
def rmutexGuardSinglePublicMembers : List String :=
  ["rmutex_guard(T&)", "rmutex_guard(std::try_to_lock_t, T&)", "~rmutex_guard",
   "rmutex_guard(rmutex_guard&&)", "operator=(rmutex_guard&&)",
   "rmutex_guard(const rmutex_guard&) = delete", "operator=(const rmutex_guard&) = delete",
   "owns const&", "operator bool const&",
   "owns const&& = delete", "operator bool const&& = delete",
   "try_lock const&", "lock const&",
   "get_data &", "get_data const&",
   "get_data && = delete", "get_data const&& = delete"]

/-! ### Helper lemmas about the locking algorithms -/

theorem MState.extEq {n : Nat} {α : Type} {a b : MState n α}
    (h1 : a.locked = b.locked) (h2 : a.data = b.data) : a = b := by
  cases a; cases b; cases h1; cases h2; rfl

theorem update_locked_true {n : Nat} {σ : Fin n → Bool} {i j : Fin n}
    (hj : σ j = true) : Function.update σ i true j = true := by
  rcases eq_or_ne j i with rfl | hne
  · simp
  · simpa [Function.update_noteq hne] using hj

theorem lockAllGo_spec {n : Nat} {α : Type} {ls : List (ULock n)} :
    ∀ {σ σ' : MState n α} {ls'}, lockAllGo σ ls = some (σ', ls') →
    σ'.data = σ.data ∧ (∀ j, σ.locked j = true → σ'.locked j = true) ∧
    (∀ l ∈ ls', l.owns = true) ∧
    (∀ l ∈ ls', ∀ j, l.mtx = some j → σ'.locked j = true) ∧
    ls'.length = ls.length ∧ ls'.map ULock.mtx = ls.map ULock.mtx := by
  induction ls with
  | nil =>
    intro σ σ' ls' h
    have h' := Option.some.inj h
    rw [Prod.mk.injEq] at h'
    obtain ⟨hσ, hls⟩ := h'
    subst hσ; subst hls
    simp
  | cons l rest ih =>
    intro σ σ' ls' h
    simp only [lockAllGo] at h
    cases hm : l.mtx with
    | none => rw [hm] at h; exact absurd h (by simp)
    | some i =>
      rw [hm] at h
      by_cases how : l.owns = true
      · simp [how] at h
      · simp only [how, if_false, Bool.not_eq_true] at h
        by_cases hloc : σ.locked i = true
        · simp [hloc] at h
        · simp only [hloc, if_false, Bool.not_eq_true] at h
          cases hrec : lockAllGo { σ with locked := Function.update σ.locked i true } rest with
          | none => rw [hrec] at h; exact absurd h (by simp)
          | some p =>
            obtain ⟨σ'', ls''⟩ := p
            rw [hrec] at h
            have h' := Option.some.inj h
            rw [Prod.mk.injEq] at h'
            obtain ⟨hσ, hls⟩ := h'
            subst hσ; subst hls
            obtain ⟨ihd, ihm, iho, iht, ihl, ihmap⟩ := ih hrec
            refine ⟨ihd, ?_, ?_, ?_, ?_, ?_⟩
            · intro j hj
              exact ihm j (update_locked_true hj)
            · intro x hx
              rcases List.mem_cons.mp hx with hx | hx
              · subst hx; rfl
              · exact iho x hx
            · intro x hx j hj
              rcases List.mem_cons.mp hx with hx | hx
              · subst hx
                simp only [Option.some.injEq] at hj
                subst hj
                exact ihm _ (by simp)
              · exact iht x hx j hj
            · simp [ihl]
            · simp [ihmap, hm]

theorem tryLockAllGo_false_spec {n : Nat} {α : Type} {ls : List (ULock n)} :
    ∀ {σ σ' : MState n α} {ls'}, tryLockAllGo σ ls = some (σ', ls', false) →
    σ' = σ ∧ ls' = ls := by
  induction ls with
  | nil =>
    intro σ σ' ls' h
    simp [tryLockAllGo] at h
  | cons l rest ih =>
    intro σ σ' ls' h
    simp only [tryLockAllGo] at h
    cases hm : l.mtx with
    | none => rw [hm] at h; exact absurd h (by simp)
    | some i =>
      rw [hm] at h
      by_cases how : l.owns = true
      · simp [how] at h
      · simp only [how, if_false, Bool.not_eq_true] at h
        by_cases hloc : σ.locked i = true
        · simp only [hloc, if_true] at h
          have h' := Option.some.inj h
          rw [Prod.mk.injEq, Prod.mk.injEq] at h'
          exact ⟨h'.1.symm, h'.2.1.symm⟩
        · simp only [hloc, if_false, Bool.not_eq_true] at h
          cases hrec : tryLockAllGo { σ with locked := Function.update σ.locked i true } rest with
          | none => rw [hrec] at h; exact absurd h (by simp)
          | some p =>
            obtain ⟨σ'', ls'', b''⟩ := p
            rw [hrec] at h
            cases b'' with
            | true => simp at h
            | false =>
              have h' := Option.some.inj h
              rw [Prod.mk.injEq, Prod.mk.injEq] at h'
              obtain ⟨hσ, hls, -⟩ := h'
              obtain ⟨hs, hl⟩ := ih hrec
              subst hs
              constructor
              · rw [← hσ]
                refine MState.extEq ?_ rfl
                show Function.update (Function.update σ.locked i true) i false = σ.locked
                rw [Function.update_idem]
                exact Function.update_eq_self_iff.mpr (by simpa using hloc)
              · rw [← hls, hl]

theorem tryLockAllGo_true_spec {n : Nat} {α : Type} {ls : List (ULock n)} :
    ∀ {σ σ' : MState n α} {ls'}, tryLockAllGo σ ls = some (σ', ls', true) →
    σ'.data = σ.data ∧ (∀ j, σ.locked j = true → σ'.locked j = true) ∧
    (∀ l ∈ ls', l.owns = true) ∧
    (∀ l ∈ ls', ∀ j, l.mtx = some j → σ'.locked j = true) ∧
    ls'.map ULock.mtx = ls.map ULock.mtx := by
  induction ls with
  | nil =>
    intro σ σ' ls' h
    have h' := Option.some.inj h
    rw [Prod.mk.injEq, Prod.mk.injEq] at h'
    obtain ⟨hσ, hls, -⟩ := h'
    subst hσ
    rw [← hls]
    simp
  | cons l rest ih =>
    intro σ σ' ls' h
    simp only [tryLockAllGo] at h
    cases hm : l.mtx with
    | none => rw [hm] at h; exact absurd h (by simp)
    | some i =>
      rw [hm] at h
      by_cases how : l.owns = true
      · simp [how] at h
      · simp only [how, if_false, Bool.not_eq_true] at h
        by_cases hloc : σ.locked i = true
        · simp only [hloc, if_true] at h
          have h' := Option.some.inj h
          rw [Prod.mk.injEq, Prod.mk.injEq] at h'
          exact absurd h'.2.2 (by simp)
        · simp only [hloc, if_false, Bool.not_eq_true] at h
          cases hrec : tryLockAllGo { σ with locked := Function.update σ.locked i true } rest with
          | none => rw [hrec] at h; exact absurd h (by simp)
          | some p =>
            obtain ⟨σ'', ls'', b''⟩ := p
            rw [hrec] at h
            cases b'' with
            | false =>
              have h' := Option.some.inj h
              rw [Prod.mk.injEq, Prod.mk.injEq] at h'
              exact absurd h'.2.2 (by simp)
            | true =>
              have h' := Option.some.inj h
              rw [Prod.mk.injEq, Prod.mk.injEq] at h'
              obtain ⟨hσ, hls, -⟩ := h'
              subst hσ
              obtain ⟨ihd, ihm, iho, iht, ihmap⟩ := ih hrec
              refine ⟨ihd, ?_, ?_, ?_, ?_⟩
              · intro j hj
                exact ihm j (update_locked_true hj)
              · intro x hx
                rw [← hls] at hx
                rcases List.mem_cons.mp hx with hx | hx
                · subst hx; rfl
                · exact iho x hx
              · intro x hx j hj
                rw [← hls] at hx
                rcases List.mem_cons.mp hx with hx | hx
                · subst hx
                  simp only [Option.some.injEq] at hj
                  subst hj
                  exact ihm _ (by simp)
                · exact iht x hx j hj
              · rw [← hls]; simp [ihmap, hm]

theorem freshLocks_cons {n : Nat} {i : Fin n} {rest : List (Fin n)} :
    freshLocks (i :: rest) = ⟨some i, false⟩ :: freshLocks rest := rfl

theorem tryFresh_isSome {n : Nat} {α : Type} :
    ∀ (idxs : List (Fin n)) (σ : MState n α),
    (tryLockAllGo σ (freshLocks idxs)).isSome = true := by
  intro idxs
  induction idxs with
  | nil => intro σ; rfl
  | cons i rest ih =>
    intro σ
    rw [freshLocks_cons]
    simp only [tryLockAllGo]
    by_cases hloc : σ.locked i = true
    · simp [hloc]
    · simp only [hloc, if_false, Bool.not_eq_true]
      cases hrec : tryLockAllGo { σ with locked := Function.update σ.locked i true }
          (freshLocks rest) with
      | none =>
        have := ih { σ with locked := Function.update σ.locked i true }
        rw [hrec] at this
        simp at this
      | some p =>
        obtain ⟨σ', ls', b⟩ := p
        cases b <;> simp

theorem tryFresh_true_free {n : Nat} {α : Type} :
    ∀ {idxs : List (Fin n)} {σ σ' : MState n α} {ls'},
    tryLockAllGo σ (freshLocks idxs) = some (σ', ls', true) →
    ∀ i ∈ idxs, σ.locked i = false := by
  intro idxs
  induction idxs with
  | nil => intro σ σ' ls' _ i hi; exact absurd hi (by simp)
  | cons i rest ih =>
    intro σ σ' ls' h j hj
    rw [freshLocks_cons] at h
    simp only [tryLockAllGo] at h
    by_cases hloc : σ.locked i = true
    · simp only [hloc, if_true] at h
      have h' := Option.some.inj h
      rw [Prod.mk.injEq, Prod.mk.injEq] at h'
      exact absurd h'.2.2 (by simp)
    · simp only [hloc, if_false, Bool.not_eq_true] at h
      cases hrec : tryLockAllGo { σ with locked := Function.update σ.locked i true }
          (freshLocks rest) with
      | none => rw [hrec] at h; exact absurd h (by simp)
      | some p =>
        obtain ⟨σ'', ls'', b''⟩ := p
        rw [hrec] at h
        cases b'' with
        | false =>
          have h' := Option.some.inj h
          rw [Prod.mk.injEq, Prod.mk.injEq] at h'
          exact absurd h'.2.2 (by simp)
        | true =>
          rcases List.mem_cons.mp hj with rfl | hj
          · simpa using hloc
          · have := ih hrec j hj
            rcases eq_or_ne j i with rfl | hne
            · simpa using hloc
            · rwa [show ({ σ with locked := Function.update σ.locked i true } :
                  MState n α).locked j = σ.locked j from Function.update_noteq hne _ _] at this

theorem tryFresh_free_true {n : Nat} {α : Type} :
    ∀ {idxs : List (Fin n)} {σ : MState n α}, idxs.Nodup →
    (∀ i ∈ idxs, σ.locked i = false) →
    ∃ σ' ls', tryLockAllGo σ (freshLocks idxs) = some (σ', ls', true) := by
  intro idxs
  induction idxs with
  | nil => intro σ _ _; exact ⟨σ, [], rfl⟩
  | cons i rest ih =>
    intro σ hnd hfree
    have hi : σ.locked i = false := hfree i (by simp)
    have hnotin : i ∉ rest := (List.nodup_cons.mp hnd).1
    have hrestfree : ∀ j ∈ rest,
        ({ σ with locked := Function.update σ.locked i true } : MState n α).locked j = false := by
      intro j hj
      have hne : j ≠ i := fun hji => hnotin (hji ▸ hj)
      rw [show ({ σ with locked := Function.update σ.locked i true } :
          MState n α).locked j = σ.locked j from Function.update_noteq hne _ _]
      exact hfree j (by simp [hj])
    obtain ⟨σ', ls', hrec⟩ := ih (List.nodup_cons.mp hnd).2 hrestfree
    refine ⟨σ', ⟨some i, true⟩ :: ls', ?_⟩
    rw [freshLocks_cons]
    simp only [tryLockAllGo, hi, hrec]
    simp

theorem freshLocks_map_mtx {n : Nat} {idxs : List (Fin n)} :
    (freshLocks idxs).map ULock.mtx = idxs.map some := by
  induction idxs with
  | nil => rfl
  | cons i rest ih => simp only [freshLocks_cons, List.map_cons, ih]

theorem freshLocks_owns {n : Nat} {idxs : List (Fin n)} :
    ∀ l ∈ freshLocks idxs, l.owns = false := by
  intro l hl
  obtain ⟨i, -, rfl⟩ := List.mem_map.mp hl
  rfl

/-- Example pool used by witnesses: two integer cells, both unlocked, both 0. -/
def exState2 : MState 2 Int := ⟨fun _ => false, fun _ => 0⟩

/-! ### Claim theorems -/

/-- Claim C4: every blocking acquisition establishes ownership.  `rmutex::lock()`
returns an `rmutex_ref` that holds the cell's lock; the blocking guard
constructor and `rmutex_guard::lock()` return only after acquiring all requested
locks, with `owns()` true as a postcondition (and every per-cell handle
owning). -/
theorem c4_blocking_acquisition_ownership {n : Nat} {α : Type} (σ : MState n α) :
    (∀ (i : Fin n) σ' r, rmutexLock σ i = some (σ', r) →
      r.lock.owns = true ∧ r.lock.mtx = some i ∧ r.dataIdx = i ∧ σ'.locked i = true) ∧
    (∀ idxs σ' g, mkBlocking σ idxs = some (σ', g) →
      g.ownsLocks = true ∧ (∀ l ∈ g.locks, l.owns = true) ∧
      (∀ i ∈ idxs, σ'.locked i = true)) ∧
    (∀ g σ' g', mguardLock σ g = some (σ', g') →
      g'.ownsLocks = true ∧ ∀ l ∈ g'.locks, l.owns = true) := by
  refine ⟨?_, ?_, ?_⟩
  · intro i σ' r h
    simp only [rmutexLock] at h
    by_cases hloc : σ.locked i = true
    · simp [hloc] at h
    · simp only [hloc, if_false, Bool.not_eq_true] at h
      have h' := Option.some.inj h
      rw [Prod.mk.injEq] at h'
      obtain ⟨hσ, hr⟩ := h'
      subst hσ; subst hr
      exact ⟨rfl, rfl, rfl, by simp⟩
  · intro idxs σ' g h
    rw [mkBlocking, Option.map_eq_some'] at h
    obtain ⟨⟨σ'', ls''⟩, hgo, heq⟩ := h
    rw [Prod.mk.injEq] at heq
    obtain ⟨hσ, hG⟩ := heq
    subst hσ; subst hG
    obtain ⟨-, -, howns, htarg, -, hmap⟩ := lockAllGo_spec hgo
    refine ⟨rfl, howns, ?_⟩
    intro i hi
    have hmem : some i ∈ ls''.map ULock.mtx := by
      rw [hmap, freshLocks_map_mtx]
      exact List.mem_map.mpr ⟨i, hi, rfl⟩
    obtain ⟨l, hl, hlmtx⟩ := List.mem_map.mp hmem
    exact htarg l hl i hlmtx
  · intro g σ' g' h
    rw [mguardLock, Option.map_eq_some'] at h
    obtain ⟨⟨σ'', ls''⟩, hgo, heq⟩ := h
    rw [Prod.mk.injEq] at heq
    obtain ⟨hσ, hG⟩ := heq
    subst hσ; subst hG
    obtain ⟨-, -, howns, -, -, -⟩ := lockAllGo_spec hgo
    exact ⟨rfl, howns⟩

/-- The pool state after the C4 witness guard has locked both cells. -/
def exState2AllLocked : MState 2 Int :=
  ⟨Function.update (Function.update exState2.locked 0 true) 1 true, exState2.data⟩

theorem c4_blocking_acquisition_ownership_witness :
    mkBlocking exState2 [0, 1] =
      some (exState2AllLocked,
            ⟨[⟨some 0, true⟩, ⟨some 1, true⟩], [0, 1], true⟩) ∧
    (⟨[⟨some 0, true⟩, ⟨some 1, true⟩], [0, 1], true⟩ : MGuard 2).ownsLocks = true ∧
    (∀ i ∈ ([0, 1] : List (Fin 2)), exState2AllLocked.locked i = true) := by
  have heq : mkBlocking exState2 [0, 1] =
      some (exState2AllLocked,
            ⟨[⟨some 0, true⟩, ⟨some 1, true⟩], [0, 1], true⟩) := rfl
  have h := (c4_blocking_acquisition_ownership exState2).2.1 [0, 1] _ _ heq
  exact ⟨heq, h.1, h.2.2⟩

/-- Claim C5: `rmutex::try_lock()` (implemented by `rmutex_ref::try_acquire`)
never blocks (it is a total function of the state), returns a present optional
holding an `rmutex_ref` bound to that cell exactly when the non-blocking
acquisition succeeded, and on failure returns an empty optional leaving the
state — in particular every protected value — unchanged; no exception is
involved (the embedding returns a plain optional). -/
theorem c5_try_lock_cell {n : Nat} {α : Type} (σ : MState n α) (i : Fin n) :
    ((tryAcquire σ i).2.isSome = true ↔ σ.locked i = false) ∧
    (σ.locked i = true → tryAcquire σ i = (σ, none)) ∧
    (∀ r, (tryAcquire σ i).2 = some r →
      r.dataIdx = i ∧ r.lock.mtx = some i ∧ r.lock.owns = true) ∧
    ((tryAcquire σ i).1.data = σ.data) := by
  by_cases hloc : σ.locked i = true
  · refine ⟨?_, fun _ => ?_, ?_, ?_⟩ <;> simp [tryAcquire, hloc]
  · have hfalse : σ.locked i = false := by simpa using hloc
    refine ⟨?_, fun hcontra => ?_, ?_, ?_⟩
    · simp [tryAcquire, hfalse]
    · rw [hcontra] at hfalse; exact absurd hfalse (by simp)
    · intro r hr
      simp only [tryAcquire, hfalse] at hr
      simp only [Bool.false_eq_true, if_false, Option.some.injEq] at hr
      subst hr
      exact ⟨rfl, rfl, rfl⟩
    · simp [tryAcquire, hfalse]

theorem c5_try_lock_cell_witness :
    (tryAcquire exState2 0).2.isSome = true ∧
    tryAcquire (⟨fun _ => true, fun _ => (0 : Int)⟩ : MState 2 Int) 0 =
      (⟨fun _ => true, fun _ => (0 : Int)⟩, none) ∧
    (⟨0, ⟨some 0, true⟩⟩ : RRef 2).dataIdx = 0 := by
  have h := c5_try_lock_cell exState2 (0 : Fin 2)
  have h' := c5_try_lock_cell (⟨fun _ => true, fun _ => (0 : Int)⟩ : MState 2 Int) (0 : Fin 2)
  exact ⟨h.1.mpr (by decide), h'.2.1 (by decide),
         (h.2.2.1 ⟨0, ⟨some 0, true⟩⟩ (by decide)).1⟩

theorem tryFresh_claim {n : Nat} {α : Type} {σ σ' : MState n α} {idxs : List (Fin n)}
    {ls' : List (ULock n)} {b : Bool} (hnd : idxs.Nodup)
    (h : tryLockAllGo σ (freshLocks idxs) = some (σ', ls', b)) :
    (b = true ↔ ∀ i ∈ idxs, σ.locked i = false) ∧
    (b = true → ∀ l ∈ ls', l.owns = true) ∧
    (b = false → σ' = σ ∧ ls' = freshLocks idxs) := by
  refine ⟨⟨?_, ?_⟩, ?_, ?_⟩
  · intro hb; subst hb; exact tryFresh_true_free h
  · intro hfree
    obtain ⟨σ'', ls'', htrue⟩ := tryFresh_free_true hnd hfree
    rw [h] at htrue
    have h' := Option.some.inj htrue
    rw [Prod.mk.injEq, Prod.mk.injEq] at h'
    exact h'.2.2
  · intro hb; subst hb; exact (tryLockAllGo_true_spec h).2.2.1
  · intro hb; subst hb; exact tryLockAllGo_false_spec h

/-- Claim C2: try-acquisition on a MultiGuard (the `std::try_to_lock_t`
constructor, or `try_lock()` on a guard whose handles are still the deferred,
non-owning ones) is all-or-nothing and never blocks: the call always returns;
success (`owns()` true, every handle owning) happens exactly when every
requested mutex was free; on failure the pool state is exactly as before the
call — every lock acquired during the attempt has been released — `owns()` is
false and no handle owns. -/
theorem c2_try_acquisition_all_or_nothing {n : Nat} {α : Type} (σ : MState n α)
    (idxs : List (Fin n)) (hnd : idxs.Nodup) (g : MGuard n)
    (hg : g.locks = freshLocks idxs) :
    (mkTry σ idxs).isSome = true ∧
    (mguardTryLock σ g).isSome = true ∧
    (∀ σ' g' b, mkTry σ idxs = some (σ', g', b) →
      g'.ownsLocks = b ∧
      (b = true ↔ ∀ i ∈ idxs, σ.locked i = false) ∧
      (b = true → ∀ l ∈ g'.locks, l.owns = true) ∧
      (b = false → σ' = σ ∧ ∀ l ∈ g'.locks, l.owns = false)) ∧
    (∀ σ' g' b, mguardTryLock σ g = some (σ', g', b) →
      g'.ownsLocks = b ∧
      (b = true ↔ ∀ i ∈ idxs, σ.locked i = false) ∧
      (b = true → ∀ l ∈ g'.locks, l.owns = true) ∧
      (b = false → σ' = σ ∧ ∀ l ∈ g'.locks, l.owns = false)) := by
  have hSome : (tryLockAllGo σ (freshLocks idxs)).isSome = true := tryFresh_isSome idxs σ
  refine ⟨?_, ?_, ?_, ?_⟩
  · cases hgo : tryLockAllGo σ (freshLocks idxs) with
    | none => rw [hgo] at hSome; simp at hSome
    | some p => simp [mkTry, hgo]
  · cases hgo : tryLockAllGo σ (freshLocks idxs) with
    | none => rw [hgo] at hSome; simp at hSome
    | some p => simp [mguardTryLock, hg, hgo]
  · intro σ' g' b h
    rw [mkTry, Option.map_eq_some'] at h
    obtain ⟨⟨σ'', ls'', b''⟩, hgo, heq⟩ := h
    rw [Prod.mk.injEq, Prod.mk.injEq] at heq
    obtain ⟨hσ, hG, hb⟩ := heq
    subst hσ; subst hG; subst hb
    obtain ⟨hiff, htrue, hfalse⟩ := tryFresh_claim hnd hgo
    refine ⟨rfl, hiff, htrue, fun hb => ⟨(hfalse hb).1, fun l hl => ?_⟩⟩
    rw [(hfalse hb).2] at hl
    exact freshLocks_owns l hl
  · intro σ' g' b h
    rw [mguardTryLock, hg, Option.map_eq_some'] at h
    obtain ⟨⟨σ'', ls'', b''⟩, hgo, heq⟩ := h
    rw [Prod.mk.injEq, Prod.mk.injEq] at heq
    obtain ⟨hσ, hG, hb⟩ := heq
    subst hσ; subst hG; subst hb
    obtain ⟨hiff, htrue, hfalse⟩ := tryFresh_claim hnd hgo
    refine ⟨rfl, hiff, htrue, fun hb => ⟨(hfalse hb).1, fun l hl => ?_⟩⟩
    rw [(hfalse hb).2] at hl
    exact freshLocks_owns l hl

theorem c2_try_acquisition_all_or_nothing_witness :
    (mkTry exState2 [0, 1]).isSome = true ∧
    (∀ i ∈ ([0, 1] : List (Fin 2)), exState2.locked i = false) ∧
    (⟨[⟨some 0, true⟩, ⟨some 1, true⟩], [0, 1], true⟩ : MGuard 2).ownsLocks = true := by
  have h := c2_try_acquisition_all_or_nothing exState2 [0, 1] (by decide)
    ⟨freshLocks [0, 1], [0, 1], false⟩ rfl
  have heq : mkTry exState2 [0, 1] =
      some (exState2AllLocked, ⟨[⟨some 0, true⟩, ⟨some 1, true⟩], [0, 1], true⟩, true) := rfl
  have h3 := h.2.2.1 _ _ _ heq
  exact ⟨h.1, h3.2.1.mp rfl, h3.1⟩

/-- Claim C3: `get_data()` on an lvalue MultiGuard returns a populated optional
iff `owns()` is true; when populated it holds exactly the protected values of
the guarded cells, in the order the cells were passed (`_mutex_refs`, which both
constructors set to the cells passed, in order); the const overload yields the
same values; when `owns()` is false the result is the empty optional.  The
embedding of `get_data` is a pure function of the state, mirroring that the
source only reads `_owns_locks` and forms references, changing neither the
guard's ownership state nor any protected value. -/
theorem c3_get_data_gating {n : Nat} {α : Type} (σ : MState n α) (g : MGuard n) :
    ((mguardGetData σ g).isSome = true ↔ g.ownsLocks = true) ∧
    (g.ownsLocks = true → mguardGetData σ g = some (g.mutexRefs.map σ.data)) ∧
    (g.ownsLocks = false → mguardGetData σ g = none) ∧
    (mguardGetDataConst σ g = mguardGetData σ g) ∧
    (∀ (σ₀ σ' : MState n α) idxs g', mkBlocking σ₀ idxs = some (σ', g') →
      g'.mutexRefs = idxs) ∧
    (∀ (σ₀ σ' : MState n α) idxs g' b, mkTry σ₀ idxs = some (σ', g', b) →
      g'.mutexRefs = idxs) := by
  refine ⟨?_, ?_, ?_, ?_, ?_, ?_⟩
  · cases hown : g.ownsLocks <;> simp [mguardGetData, hown]
  · intro hown; simp [mguardGetData, hown]
  · intro hown; simp [mguardGetData, hown]
  · cases hown : g.ownsLocks <;> simp [mguardGetData, mguardGetDataConst, hown]
  · intro σ₀ σ' idxs g' h
    rw [mkBlocking, Option.map_eq_some'] at h
    obtain ⟨⟨σ'', ls''⟩, -, heq⟩ := h
    rw [Prod.mk.injEq] at heq
    rw [← heq.2]
  · intro σ₀ σ' idxs g' b h
    rw [mkTry, Option.map_eq_some'] at h
    obtain ⟨⟨σ'', ls'', b''⟩, -, heq⟩ := h
    rw [Prod.mk.injEq, Prod.mk.injEq] at heq
    rw [← heq.2.1]

theorem c3_get_data_gating_witness :
    mguardGetData exState2AllLocked
      (⟨[⟨some 0, true⟩, ⟨some 1, true⟩], [0, 1], true⟩ : MGuard 2) =
      some (([0, 1] : List (Fin 2)).map exState2AllLocked.data) ∧
    mguardGetData exState2AllLocked (⟨freshLocks [0, 1], [0, 1], false⟩ : MGuard 2) = none := by
  have h1 := c3_get_data_gating exState2AllLocked
    (⟨[⟨some 0, true⟩, ⟨some 1, true⟩], [0, 1], true⟩ : MGuard 2)
  have h2 := c3_get_data_gating exState2AllLocked
    (⟨freshLocks [0, 1], [0, 1], false⟩ : MGuard 2)
  exact ⟨h1.2.1 rfl, h2.2.2.1 rfl⟩

/-- The guard states reachable through the public operations of
`rmutex_guard<Ts...>` used as specified: blocking construction, try
construction, `lock()`/`try_lock()` retried only while not owning, move
construction (both the destination and the moved-from source are guards), and
move assignment (likewise).  Destruction removes the guard, so it contributes no
state.  At least one cell is guarded (the variadic locking calls are only
well-formed for a nonempty pack).  The state `σ` at which each operation runs is
arbitrary, which over-approximates what concurrent owners of the other cells
could produce. -/
inductive ReachG {n : Nat} (α : Type) : MGuard n → Prop where
  | ctorBlocking : ∀ (σ σ' : MState n α) (idxs : List (Fin n)) (g : MGuard n),
      idxs ≠ [] → mkBlocking σ idxs = some (σ', g) → ReachG α g
  | ctorTry : ∀ (σ σ' : MState n α) (idxs : List (Fin n)) (g : MGuard n) (b : Bool),
      idxs ≠ [] → mkTry σ idxs = some (σ', g, b) → ReachG α g
  | stepLock : ∀ (σ σ' : MState n α) (g g' : MGuard n),
      ReachG α g → g.ownsLocks = false → mguardLock σ g = some (σ', g') → ReachG α g'
  | stepTryLock : ∀ (σ σ' : MState n α) (g g' : MGuard n) (b : Bool),
      ReachG α g → g.ownsLocks = false → mguardTryLock σ g = some (σ', g', b) →
      ReachG α g'
  | moveDst : ∀ g : MGuard n, ReachG α g → ReachG α (mguardMoveCtor g).1
  | moveSrc : ∀ g : MGuard n, ReachG α g → ReachG α (mguardMoveCtor g).2
  | assignDst : ∀ (σ σ' : MState n α) (t s t' s' : MGuard n),
      ReachG α t → ReachG α s → mguardMoveAssign σ t s = some (σ', t', s') →
      ReachG α t'
  | assignSrc : ∀ (σ σ' : MState n α) (t s t' s' : MGuard n),
      ReachG α t → ReachG α s → mguardMoveAssign σ t s = some (σ', t', s') →
      ReachG α s'

theorem reachG_invariant {n : Nat} {α : Type} {g : MGuard n} (h : ReachG α g) :
    g.locks ≠ [] ∧
    ((g.ownsLocks = true ∧ ∀ l ∈ g.locks, l.owns = true) ∨
     (g.ownsLocks = false ∧ ∀ l ∈ g.locks, l.owns = false)) := by
  induction h with
  | ctorBlocking σ σ' idxs g hne h =>
    rw [mkBlocking, Option.map_eq_some'] at h
    obtain ⟨⟨σ'', ls''⟩, hgo, heq⟩ := h
    rw [Prod.mk.injEq] at heq
    obtain ⟨-, hG⟩ := heq
    subst hG
    obtain ⟨-, -, howns, -, hlen, -⟩ := lockAllGo_spec hgo
    constructor
    · show ls'' ≠ []
      rw [← List.length_pos, hlen]
      simp only [freshLocks, List.length_map]
      exact List.length_pos.mpr hne
    · exact Or.inl ⟨rfl, howns⟩
  | ctorTry σ σ' idxs g b hne h =>
    rw [mkTry, Option.map_eq_some'] at h
    obtain ⟨⟨σ'', ls'', b''⟩, hgo, heq⟩ := h
    rw [Prod.mk.injEq, Prod.mk.injEq] at heq
    obtain ⟨-, hG, -⟩ := heq
    subst hG
    cases b'' with
    | true =>
      obtain ⟨-, -, howns, -, hmap⟩ := tryLockAllGo_true_spec hgo
      constructor
      · show ls'' ≠ []
        rw [← List.length_pos]
        have : ls''.length = (freshLocks idxs).length := by
          rw [← List.length_map ls'' ULock.mtx, hmap, List.length_map]
        rw [this]
        simp only [freshLocks, List.length_map]
        exact List.length_pos.mpr hne
      · exact Or.inl ⟨rfl, howns⟩
    | false =>
      obtain ⟨-, hls⟩ := tryLockAllGo_false_spec hgo
      subst hls
      refine ⟨?_, Or.inr ⟨rfl, freshLocks_owns⟩⟩
      show freshLocks idxs ≠ []
      rw [← List.length_pos]
      simp only [freshLocks, List.length_map]
      exact List.length_pos.mpr hne
  | stepLock σ σ' g g' hr hflag h ih =>
    rw [mguardLock, Option.map_eq_some'] at h
    obtain ⟨⟨σ'', ls''⟩, hgo, heq⟩ := h
    rw [Prod.mk.injEq] at heq
    obtain ⟨-, hG⟩ := heq
    subst hG
    obtain ⟨-, -, howns, -, hlen, -⟩ := lockAllGo_spec hgo
    constructor
    · show ls'' ≠ []
      rw [← List.length_pos, hlen, List.length_pos]
      exact ih.1
    · exact Or.inl ⟨rfl, howns⟩
  | stepTryLock σ σ' g g' b hr hflag h ih =>
    rw [mguardTryLock, Option.map_eq_some'] at h
    obtain ⟨⟨σ'', ls'', b''⟩, hgo, heq⟩ := h
    rw [Prod.mk.injEq, Prod.mk.injEq] at heq
    obtain ⟨-, hG, -⟩ := heq
    subst hG
    cases b'' with
    | true =>
      obtain ⟨-, -, howns, -, hmap⟩ := tryLockAllGo_true_spec hgo
      constructor
      · show ls'' ≠ []
        rw [← List.length_pos]
        have : ls''.length = g.locks.length := by
          rw [← List.length_map ls'' ULock.mtx, hmap, List.length_map]
        rw [this, List.length_pos]
        exact ih.1
      · exact Or.inl ⟨rfl, howns⟩
    | false =>
      obtain ⟨-, hls⟩ := tryLockAllGo_false_spec hgo
      subst hls
      refine ⟨ih.1, Or.inr ⟨rfl, ?_⟩⟩
      rcases ih.2 with ⟨hf, -⟩ | ⟨-, hnone⟩
      · rw [hflag] at hf; exact absurd hf (by simp)
      · exact hnone
  | moveDst g hr ih => exact ih
  | moveSrc g hr ih =>
    refine ⟨?_, Or.inr ⟨rfl, ?_⟩⟩
    · show g.locks.map (fun _ => movedULock) ≠ []
      simpa using ih.1
    · intro l hl
      obtain ⟨x, -, rfl⟩ := List.mem_map.mp hl
      rfl
  | assignDst σ σ' t s t' s' hrt hrs h iht ihs =>
    rw [mguardMoveAssign, Option.map_eq_some'] at h
    obtain ⟨σ₂, -, heq⟩ := h
    rw [Prod.mk.injEq, Prod.mk.injEq] at heq
    obtain ⟨-, hT, -⟩ := heq
    subst hT
    exact ⟨ihs.1, ihs.2⟩
  | assignSrc σ σ' t s t' s' hrt hrs h iht ihs =>
    rw [mguardMoveAssign, Option.map_eq_some'] at h
    obtain ⟨σ₂, -, heq⟩ := h
    rw [Prod.mk.injEq, Prod.mk.injEq] at heq
    obtain ⟨-, -, hS⟩ := heq
    subst hS
    refine ⟨?_, Or.inr ⟨rfl, ?_⟩⟩
    · show s.locks.map (fun _ => movedULock) ≠ []
      simpa using ihs.1
    · intro l hl
      obtain ⟨x, -, rfl⟩ := List.mem_map.mp hl
      rfl

/-- Claim C1: in every state reachable through the public MultiGuard operations
used as specified, `owns()` is true iff every per-cell unique_lock currently
owns its mutex; in particular no reachable state holds some but not all of its
locks (the underlying invariant is the all-or-nothing disjunction proved in
`reachG_invariant`). -/
theorem c1_owns_iff_all_handles_own {n : Nat} {α : Type} {g : MGuard n}
    (h : ReachG α g) :
    g.ownsLocks = true ↔ ∀ l ∈ g.locks, l.owns = true := by
  obtain ⟨hne, hinv⟩ := reachG_invariant h
  rcases hinv with ⟨hf, hall⟩ | ⟨hf, hnone⟩
  · exact ⟨fun _ => hall, fun _ => hf⟩
  · constructor
    · intro hcontra
      rw [hf] at hcontra
      exact absurd hcontra (by simp)
    · intro hall
      obtain ⟨l, hl⟩ := List.exists_mem_of_ne_nil g.locks hne
      have h1 := hall l hl
      have h2 := hnone l hl
      rw [h1] at h2
      exact absurd h2 (by simp)

theorem c1_owns_iff_all_handles_own_witness :
    ((⟨[⟨some 0, true⟩, ⟨some 1, true⟩], [0, 1], true⟩ : MGuard 2).ownsLocks = true ↔
      ∀ l ∈ (⟨[⟨some 0, true⟩, ⟨some 1, true⟩], [0, 1], true⟩ : MGuard 2).locks,
        l.owns = true) :=
  c1_owns_iff_all_handles_own
    (ReachG.ctorBlocking exState2 exState2AllLocked [0, 1]
      ⟨[⟨some 0, true⟩, ⟨some 1, true⟩], [0, 1], true⟩ (by decide) rfl)

theorem mutexRefsAssign_self {n : Nat} {α : Type} :
    ∀ (ts : List (Fin n)) (σ : MState n α), mutexRefsAssign σ ts ts = some σ := by
  intro ts
  induction ts with
  | nil => intro σ; rfl
  | cons t rest ih =>
    intro σ
    show mutexRefsAssign σ (t :: rest) (t :: rest) = some σ
    simp only [mutexRefsAssign, rmutexMoveAssign, if_pos rfl]
    exact ih σ

/-- Example pool for the move-assignment witnesses and counterexamples: two
integer cells, both locked, with protected values 1 and 2. -/
def exStateC9 : MState 2 Int := ⟨fun _ => true, fun j => if j = 0 then 1 else 2⟩

/-- Example pool for the variadic move-assignment failing input: four integer
cells, all locked (cells 0,1 by the target guard, cells 2,3 by the source). -/
def exState4 : MState 4 Int := ⟨fun _ => true, fun _ => 0⟩

/-- Claim C10 (failing input): the variadic `rmutex_guard` move assignment.
Its statement `_mutex_refs = std::move(other._mutex_refs)` (rmutex_guard.hpp
line 205) is ill-formed whenever the operator is instantiated — the
`std::tuple<rmutex<T>&...>` assignment assigns through the reference elements,
forwarding lvalues into `rmutex`'s deleted copy assignment — so the operator
documented to release the target's locks and transfer ownership
(rmutex_guard.hpp lines 192-200) cannot compile when used.  The theorem
evaluates the embedding at that input: the `rmutex_ref` and `rmutex_guard<T>`
assignments do release the target's mutex and adopt the source's lock as the
claim describes, while even the charitable executable reading of the variadic
operator (`mguardMoveAssign`), applied to owning guards over different cells,
returns `none` — it blocks inside the cell-to-cell `std::lock` and never
reaches the claimed post-state in which the target holds the source's locks. -/
theorem c10_variadic_move_assignment_failing_input :
    (rrefMoveAssign exStateC9 ⟨0, ⟨some 0, true⟩⟩ ⟨1, ⟨some 1, true⟩⟩).1.locked 0 = false ∧
    (rrefMoveAssign exStateC9 ⟨0, ⟨some 0, true⟩⟩ ⟨1, ⟨some 1, true⟩⟩).2.1.lock =
      ⟨some 1, true⟩ ∧
    (rrefMoveAssign exStateC9 ⟨0, ⟨some 0, true⟩⟩ ⟨1, ⟨some 1, true⟩⟩).2.2.lock.owns =
      false ∧
    (sguardMoveAssign exStateC9 ⟨⟨some 0, true⟩, 0, true⟩ ⟨⟨some 1, true⟩, 1, true⟩).1.locked 0
      = false ∧
    (sguardMoveAssign exStateC9 ⟨⟨some 0, true⟩, 0, true⟩ ⟨⟨some 1, true⟩, 1, true⟩).2.1.lock
      = ⟨some 1, true⟩ ∧
    (sguardMoveAssign exStateC9 ⟨⟨some 0, true⟩, 0, true⟩ ⟨⟨some 1, true⟩, 1, true⟩).2.2.ownsLock
      = false ∧
    mguardMoveAssign exState4
      (⟨[⟨some 0, true⟩, ⟨some 1, true⟩], [0, 1], true⟩ : MGuard 4)
      (⟨[⟨some 2, true⟩, ⟨some 3, true⟩], [2, 3], true⟩ : MGuard 4) = none := by
  refine ⟨?_, rfl, rfl, ?_, rfl, rfl, rfl⟩ <;> decide

/-- Claim C9 (failing input): `rmutex_ref` move assignment between refs bound to
different cells.  With both cells locked by their refs and values 1 and 2,
`t = std::move(s)` executes `data = other.data`, writing cell 1's value 2 into
cell 0's protected data (which the claim says the move must not modify), and the
target stays bound to cell 0 (not to the source's cell 1), while adopting the
source's lock on cell 1. -/
theorem c9_move_assignment_failing_input :
    exStateC9.data 0 = 1 ∧
    (rrefMoveAssign exStateC9 ⟨0, ⟨some 0, true⟩⟩ ⟨1, ⟨some 1, true⟩⟩).1.data 0 = 2 ∧
    (rrefMoveAssign exStateC9 ⟨0, ⟨some 0, true⟩⟩ ⟨1, ⟨some 1, true⟩⟩).2.1.dataIdx = 0 ∧
    (rrefMoveAssign exStateC9 ⟨0, ⟨some 0, true⟩⟩ ⟨1, ⟨some 1, true⟩⟩).2.1.lock =
      ⟨some 1, true⟩ ∧
    (sguardMoveAssign exStateC9 ⟨⟨some 0, true⟩, 0, true⟩ ⟨⟨some 1, true⟩, 1, true⟩).1.data 0
      = 2 ∧
    (sguardMoveAssign exStateC9 ⟨⟨some 0, true⟩, 0, true⟩ ⟨⟨some 1, true⟩, 1, true⟩).2.1.dataRef
      = 0 := by
  refine ⟨rfl, ?_, rfl, rfl, ?_, rfl⟩ <;> decide

/-- Claim C7 (counterexample): `rmutex_ref` declares no `owns()` member and no
boolean conversion operator in any form — its public member surface, transcribed
from the class declaration, contains neither — so the claim that ScopedRef
(rmutex_ref) provides these operations fails on the code. -/
theorem c7_scoped_ref_owns_counterexample :
    (rmutexRefPublicMembers.all (fun m =>
      !(m == "owns" || m == "owns const&" || m == "owns const&& = delete" ||
        m == "operator bool" || m == "operator bool const&" ||
        m == "operator bool const&& = delete"))) = true ∧
    ("owns const&" ∈ rmutexRefPublicMembers) = False ∧
    ("operator bool const&" ∈ rmutexRefPublicMembers) = False := by
  refine ⟨by decide, ?_, ?_⟩ <;>
    simp [rmutexRefPublicMembers]

/-- Claim C7 (amended): the ownership-reporting operations `owns()` and
`explicit operator bool`, restricted to lvalues (the const&& overloads are
deleted), are provided by the guard type `rmutex_guard<T>`, not by `rmutex_ref`;
`rmutex_ref` maintains the ownership state internally: its unique_lock owns the
mutex after construction via `rmutex::lock()` and no longer owns after the
handle is moved from.  For `rmutex_guard<T>`, `owns()` is true after blocking
construction and false after the guard is moved from. -/
theorem c7_ownership_reporting_amended {n : Nat} {α : Type} (σ : MState n α)
    (i : Fin n) :
    ("owns const&" ∈ rmutexGuardSinglePublicMembers ∧
     "operator bool const&" ∈ rmutexGuardSinglePublicMembers ∧
     "owns const&& = delete" ∈ rmutexGuardSinglePublicMembers ∧
     "operator bool const&& = delete" ∈ rmutexGuardSinglePublicMembers) ∧
    (∀ σ' r, rmutexLock σ i = some (σ', r) →
      r.lock.owns = true ∧ (rrefMoveCtor r).2.lock.owns = false ∧
      (rrefMoveCtor r).1.lock.owns = true) ∧
    (∀ σ' s, sguardMkBlocking σ i = some (σ', s) →
      s.ownsLock = true ∧ (sguardMoveCtor s).1.ownsLock = s.ownsLock ∧
      (sguardMoveCtor s).2.ownsLock = false) := by
  refine ⟨by decide, ?_, ?_⟩
  · intro σ' r h
    simp only [rmutexLock] at h
    by_cases hloc : σ.locked i = true
    · simp [hloc] at h
    · simp only [hloc, if_false, Bool.not_eq_true] at h
      have h' := Option.some.inj h
      rw [Prod.mk.injEq] at h'
      obtain ⟨-, hr⟩ := h'
      subst hr
      exact ⟨rfl, rfl, rfl⟩
  · intro σ' s h
    simp only [sguardMkBlocking] at h
    by_cases hloc : σ.locked i = true
    · simp [hloc] at h
    · simp only [hloc, if_false, Bool.not_eq_true] at h
      have h' := Option.some.inj h
      rw [Prod.mk.injEq] at h'
      obtain ⟨-, hs⟩ := h'
      subst hs
      exact ⟨rfl, rfl, rfl⟩

theorem c7_ownership_reporting_amended_witness :
    "owns const&" ∈ rmutexGuardSinglePublicMembers ∧
    (⟨0, ⟨some 0, true⟩⟩ : RRef 2).lock.owns = true ∧
    (rrefMoveCtor (⟨0, ⟨some 0, true⟩⟩ : RRef 2)).2.lock.owns = false ∧
    (⟨⟨some 0, true⟩, 0, true⟩ : SGuard 2).ownsLock = true ∧
    (sguardMoveCtor (⟨⟨some 0, true⟩, 0, true⟩ : SGuard 2)).2.ownsLock = false := by
  have h := c7_ownership_reporting_amended exState2 (0 : Fin 2)
  have h2 := h.2.1 _ _ (rfl :
    rmutexLock exState2 0 = some
      (⟨Function.update exState2.locked 0 true, exState2.data⟩, ⟨0, ⟨some 0, true⟩⟩))
  have h3 := h.2.2 _ _ (rfl :
    sguardMkBlocking exState2 0 = some
      (⟨Function.update exState2.locked 0 true, exState2.data⟩, ⟨⟨some 0, true⟩, 0, true⟩))
  exact ⟨h.1.1, h2.1, h2.2.1, h3.1, h3.2.2⟩

/-! ### N=1 refinement: the general variadic algorithms at a single cell versus
the rmutex_guard<T> specialization.

A machine runs an arbitrary sequence of guard operations over one fixed cell
`i`, holding a list of live guard objects; operations address guards by index.
`genStep` interprets every operation with the general variadic-guard algorithms
(`lock_all`/`try_lock_all`/tuple moves) instantiated at the single cell;
`specStep` interprets it with the N=1 specialization.  `toGen` is the evident
representation of a specialization guard as a one-cell variadic guard. -/

/-- One public guard operation, addressing guards by their index in the list of
live guards: construct (blocking or try), re-lock / re-try an existing guard,
move-construct from a guard (the destination is appended), move-assign one
guard from another, destroy a guard. -/
inductive SOp where
  | newBlocking
  | newTry
  | relock (k : Nat)
  | retry (k : Nat)
  | moveFrom (k : Nat)
  | assignFrom (t s : Nat)
  | drop (k : Nat)
deriving DecidableEq

/-- A specialization guard viewed as a one-cell variadic guard. -/
def toGen {n : Nat} (s : SGuard n) : MGuard n :=
  ⟨[s.lock], [s.dataRef], s.ownsLock⟩

/-- Interpret one operation with the general variadic guard over the single
cell `i`. -/
def genStep {n : Nat} {α : Type} (i : Fin n) (op : SOp) (σ : MState n α)
    (gs : List (MGuard n)) : Option (MState n α × List (MGuard n)) :=
  match op with
  | .newBlocking => (mkBlocking σ [i]).map (fun p => (p.1, gs ++ [p.2]))
  | .newTry => (mkTry σ [i]).map (fun p => (p.1, gs ++ [p.2.1]))
  | .relock k =>
    match gs[k]? with
    | none => none
    | some g => (mguardLock σ g).map (fun p => (p.1, gs.set k p.2))
  | .retry k =>
    match gs[k]? with
    | none => none
    | some g => (mguardTryLock σ g).map (fun p => (p.1, gs.set k p.2.1))
  | .moveFrom k =>
    match gs[k]? with
    | none => none
    | some g => some (σ, (gs.set k (mguardMoveCtor g).2) ++ [(mguardMoveCtor g).1])
  | .assignFrom t s =>
    if t = s then
      match gs[t]? with
      | none => none
      | some _ => some (σ, gs)
    else
      match gs[t]?, gs[s]? with
      | some gt, some gsrc =>
        (mguardMoveAssign σ gt gsrc).map
          (fun p => (p.1, (gs.set t p.2.1).set s p.2.2))
      | _, _ => none
  | .drop k =>
    match gs[k]? with
    | none => none
    | some g => some (mguardDestruct σ g, gs.eraseIdx k)

/-- Interpret one operation with the N=1 specialization over the single
cell `i`. -/
def specStep {n : Nat} {α : Type} (i : Fin n) (op : SOp) (σ : MState n α)
    (ss : List (SGuard n)) : Option (MState n α × List (SGuard n)) :=
  match op with
  | .newBlocking => (sguardMkBlocking σ i).map (fun p => (p.1, ss ++ [p.2]))
  | .newTry => some ((sguardMkTry σ i).1, ss ++ [(sguardMkTry σ i).2])
  | .relock k =>
    match ss[k]? with
    | none => none
    | some s => (sguardLock σ s).map (fun p => (p.1, ss.set k p.2))
  | .retry k =>
    match ss[k]? with
    | none => none
    | some s => (sguardTryLock σ s).map (fun p => (p.1, ss.set k p.2.1))
  | .moveFrom k =>
    match ss[k]? with
    | none => none
    | some s => some (σ, (ss.set k (sguardMoveCtor s).2) ++ [(sguardMoveCtor s).1])
  | .assignFrom t s =>
    if t = s then
      match ss[t]? with
      | none => none
      | some _ => some (σ, ss)
    else
      match ss[t]?, ss[s]? with
      | some st, some ssrc =>
        some ((sguardMoveAssign σ st ssrc).1,
              (ss.set t (sguardMoveAssign σ st ssrc).2.1).set s
                (sguardMoveAssign σ st ssrc).2.2)
      | _, _ => none
  | .drop k =>
    match ss[k]? with
    | none => none
    | some s => some (sguardDestruct σ s, ss.eraseIdx k)

/-- Run a sequence of operations with the general variadic guard. -/
def genRun {n : Nat} {α : Type} (i : Fin n) :
    List SOp → MState n α → List (MGuard n) → Option (MState n α × List (MGuard n))
  | [], σ, gs => some (σ, gs)
  | op :: ops, σ, gs =>
    match genStep i op σ gs with
    | none => none
    | some (σ', gs') => genRun i ops σ' gs'

/-- Run a sequence of operations with the N=1 specialization. -/
def specRun {n : Nat} {α : Type} (i : Fin n) :
    List SOp → MState n α → List (SGuard n) → Option (MState n α × List (SGuard n))
  | [], σ, ss => some (σ, ss)
  | op :: ops, σ, ss =>
    match specStep i op σ ss with
    | none => none
    | some (σ', ss') => specRun i ops σ' ss'

/-- Observable outcome of every live variadic guard: ownership flag and
`get_data()` result. -/
def genObserve {n : Nat} {α : Type} (σ : MState n α) (gs : List (MGuard n)) :
    List (Bool × Option (List α)) :=
  gs.map (fun g => (g.ownsLocks, mguardGetData σ g))

/-- Observable outcome of every live specialization guard: ownership flag and
`get_data()` result. -/
def specObserve {n : Nat} {α : Type} (σ : MState n α) (ss : List (SGuard n)) :
    List (Bool × Option α) :=
  ss.map (fun s => (s.ownsLock, sguardGetData σ s))

theorem map_eraseIdx {β γ : Type} (f : β → γ) :
    ∀ (l : List β) (k : Nat), (l.eraseIdx k).map f = (l.map f).eraseIdx k := by
  intro l
  induction l with
  | nil => intro k; rfl
  | cons x rest ih =>
    intro k
    cases k with
    | zero => rfl
    | succ k' => simp only [List.eraseIdx, List.map_cons, ih k']

theorem mkBlocking_single {n : Nat} {α : Type} (σ : MState n α) (i : Fin n) :
    mkBlocking σ [i] = (sguardMkBlocking σ i).map (fun p => (p.1, toGen p.2)) := by
  by_cases hloc : σ.locked i = true
  · simp [mkBlocking, sguardMkBlocking, lockAllGo, freshLocks, hloc]
  · simp [mkBlocking, sguardMkBlocking, lockAllGo, freshLocks, toGen, hloc]

theorem mkTry_single_eq {n : Nat} {α : Type} (σ : MState n α) (i : Fin n) :
    mkTry σ [i] =
      some ((sguardMkTry σ i).1, toGen (sguardMkTry σ i).2,
            (sguardMkTry σ i).2.ownsLock) := by
  by_cases hloc : σ.locked i = true
  · simp [mkTry, sguardMkTry, tryLockAllGo, freshLocks, toGen, hloc]
  · simp [mkTry, sguardMkTry, tryLockAllGo, freshLocks, toGen, hloc]

theorem mguardLock_single {n : Nat} {α : Type} (σ : MState n α) (s : SGuard n) :
    mguardLock σ (toGen s) = (sguardLock σ s).map (fun p => (p.1, toGen p.2)) := by
  obtain ⟨⟨m, o⟩, d, ow⟩ := s
  cases m with
  | none => rfl
  | some j =>
    cases o with
    | true => rfl
    | false =>
      by_cases hloc : σ.locked j = true
      · simp [mguardLock, sguardLock, lockAllGo, toGen, hloc]
      · simp [mguardLock, sguardLock, lockAllGo, toGen, hloc]

theorem mguardTryLock_single {n : Nat} {α : Type} (σ : MState n α) (s : SGuard n) :
    mguardTryLock σ (toGen s) =
      (sguardTryLock σ s).map (fun p => (p.1, toGen p.2.1, p.2.2)) := by
  obtain ⟨⟨m, o⟩, d, ow⟩ := s
  cases m with
  | none => rfl
  | some j =>
    cases o with
    | true => rfl
    | false =>
      by_cases hloc : σ.locked j = true
      · simp [mguardTryLock, sguardTryLock, tryLockAllGo, toGen, hloc]
      · simp [mguardTryLock, sguardTryLock, tryLockAllGo, toGen, hloc]

theorem mguardMoveCtor_single {n : Nat} (s : SGuard n) :
    mguardMoveCtor (toGen s) =
      (toGen (sguardMoveCtor s).1, toGen (sguardMoveCtor s).2) := rfl

theorem mguardMoveAssign_single {n : Nat} {α : Type} (σ : MState n α)
    {st ssrc : SGuard n} (hd : st.dataRef = ssrc.dataRef) :
    mguardMoveAssign σ (toGen st) (toGen ssrc) =
      some ((sguardMoveAssign σ st ssrc).1,
            toGen (sguardMoveAssign σ st ssrc).2.1,
            toGen (sguardMoveAssign σ st ssrc).2.2) := by
  have hL : mguardMoveAssign σ (toGen st) (toGen ssrc) =
      (mutexRefsAssign (uLockRelease σ st.lock) [st.dataRef] [ssrc.dataRef]).map
        (fun σ₂ => (σ₂, ⟨[ssrc.lock], [st.dataRef], ssrc.ownsLock⟩,
                    ⟨[movedULock], [ssrc.dataRef], false⟩)) := rfl
  have hσ2 : (sguardMoveAssign σ st ssrc).1 = uLockRelease σ st.lock := by
    show ({ uLockRelease σ st.lock with
            data := Function.update (uLockRelease σ st.lock).data st.dataRef
              ((uLockRelease σ st.lock).data ssrc.dataRef) } : MState n α) =
      uLockRelease σ st.lock
    refine MState.extEq rfl ?_
    show Function.update (uLockRelease σ st.lock).data st.dataRef
        ((uLockRelease σ st.lock).data ssrc.dataRef) = (uLockRelease σ st.lock).data
    rw [hd]
    exact Function.update_eq_self _ _
  have hR1 : toGen (sguardMoveAssign σ st ssrc).2.1 =
      ⟨[ssrc.lock], [st.dataRef], ssrc.ownsLock⟩ := rfl
  have hR2 : toGen (sguardMoveAssign σ st ssrc).2.2 =
      ⟨[movedULock], [ssrc.dataRef], false⟩ := rfl
  rw [hL, hR1, hR2, hσ2, hd, mutexRefsAssign_self, Option.map_some']

theorem mguardDestruct_single {n : Nat} {α : Type} (σ : MState n α) (s : SGuard n) :
    mguardDestruct σ (toGen s) = sguardDestruct σ s := rfl

theorem mguardGetData_single {n : Nat} {α : Type} (σ : MState n α) (s : SGuard n) :
    mguardGetData σ (toGen s) = (sguardGetData σ s).map (fun a => [a]) := by
  cases how : s.ownsLock <;> simp [mguardGetData, sguardGetData, toGen, how]

theorem sguardMkBlocking_dataRef {n : Nat} {α : Type} {σ σ' : MState n α}
    {i : Fin n} {s : SGuard n} (h : sguardMkBlocking σ i = some (σ', s)) :
    s.dataRef = i := by
  simp only [sguardMkBlocking] at h
  by_cases hloc : σ.locked i = true
  · simp [hloc] at h
  · simp only [hloc, if_false, Bool.not_eq_true] at h
    have h' := Option.some.inj h
    rw [Prod.mk.injEq] at h'
    rw [← h'.2]

theorem sguardMkTry_dataRef {n : Nat} {α : Type} (σ : MState n α) (i : Fin n) :
    (sguardMkTry σ i).2.dataRef = i := by
  by_cases hloc : σ.locked i = true <;> simp [sguardMkTry, hloc]

theorem sguardLock_dataRef {n : Nat} {α : Type} {σ σ' : MState n α}
    {s s' : SGuard n} (h : sguardLock σ s = some (σ', s')) :
    s'.dataRef = s.dataRef := by
  simp only [sguardLock] at h
  cases hm : s.lock.mtx with
  | none => rw [hm] at h; exact absurd h (by simp)
  | some j =>
    rw [hm] at h
    by_cases how : s.lock.owns = true
    · simp [how] at h
    · simp only [how, if_false, Bool.not_eq_true] at h
      by_cases hloc : σ.locked j = true
      · simp [hloc] at h
      · simp only [hloc, if_false, Bool.not_eq_true] at h
        have h' := Option.some.inj h
        rw [Prod.mk.injEq] at h'
        rw [← h'.2]

theorem sguardTryLock_dataRef {n : Nat} {α : Type} {σ σ' : MState n α}
    {s s' : SGuard n} {b : Bool} (h : sguardTryLock σ s = some (σ', s', b)) :
    s'.dataRef = s.dataRef := by
  simp only [sguardTryLock] at h
  cases hm : s.lock.mtx with
  | none => rw [hm] at h; exact absurd h (by simp)
  | some j =>
    rw [hm] at h
    by_cases how : s.lock.owns = true
    · simp [how] at h
    · simp only [how, if_false, Bool.not_eq_true] at h
      by_cases hloc : σ.locked j = true
      · simp only [hloc, if_true] at h
        have h' := Option.some.inj h
        rw [Prod.mk.injEq, Prod.mk.injEq] at h'
        rw [← h'.2.1]
      · simp only [hloc, if_false, Bool.not_eq_true] at h
        have h' := Option.some.inj h
        rw [Prod.mk.injEq, Prod.mk.injEq] at h'
        rw [← h'.2.1]

theorem stepSim {n : Nat} {α : Type} (i : Fin n) (op : SOp) (σ : MState n α)
    (ss : List (SGuard n)) (hinv : ∀ s ∈ ss, s.dataRef = i) :
    genStep i op σ (ss.map toGen) =
      (specStep i op σ ss).map (fun p => (p.1, p.2.map toGen)) := by
  cases op with
  | newBlocking =>
    simp only [genStep, specStep, mkBlocking_single]
    cases sguardMkBlocking σ i with
    | none => rfl
    | some p => simp
  | newTry =>
    simp only [genStep, specStep, mkTry_single_eq, Option.map_some']
    simp
  | relock k =>
    simp only [genStep, specStep, List.getElem?_map]
    cases hk : ss[k]? with
    | none => rfl
    | some s =>
      simp only [Option.map_some']
      rw [mguardLock_single]
      cases sguardLock σ s with
      | none => rfl
      | some p => simp [List.map_set]
  | retry k =>
    simp only [genStep, specStep, List.getElem?_map]
    cases hk : ss[k]? with
    | none => rfl
    | some s =>
      simp only [Option.map_some']
      rw [mguardTryLock_single]
      cases sguardTryLock σ s with
      | none => rfl
      | some p => simp [List.map_set]
  | moveFrom k =>
    simp only [genStep, specStep, List.getElem?_map]
    cases hk : ss[k]? with
    | none => rfl
    | some s =>
      simp only [Option.map_some', mguardMoveCtor_single]
      simp [List.map_set]
  | assignFrom tk sk =>
    by_cases hts : tk = sk
    · subst hts
      simp only [genStep, specStep, List.getElem?_map, if_pos rfl]
      cases ss[tk]? with
      | none => rfl
      | some s => simp
    · simp only [genStep, specStep, List.getElem?_map, if_neg hts]
      cases hkt : ss[tk]? with
      | none =>
        cases hks : ss[sk]? with
        | none => rfl
        | some ssrc => rfl
      | some st =>
        cases hks : ss[sk]? with
        | none => rfl
        | some ssrc =>
          simp only [Option.map_some']
          have hd : st.dataRef = ssrc.dataRef := by
            rw [hinv st (List.getElem?_mem hkt), hinv ssrc (List.getElem?_mem hks)]
          rw [mguardMoveAssign_single σ hd]
          simp [List.map_set]
  | drop k =>
    simp only [genStep, specStep, List.getElem?_map]
    cases hk : ss[k]? with
    | none => rfl
    | some s =>
      simp only [Option.map_some', mguardDestruct_single]
      simp [map_eraseIdx]

theorem stepInv {n : Nat} {α : Type} (i : Fin n) (op : SOp) (σ : MState n α)
    (ss : List (SGuard n)) (hinv : ∀ s ∈ ss, s.dataRef = i) {σ' : MState n α}
    {ss' : List (SGuard n)} (h : specStep i op σ ss = some (σ', ss')) :
    ∀ s ∈ ss', s.dataRef = i := by
  cases op with
  | newBlocking =>
    simp only [specStep, Option.map_eq_some'] at h
    obtain ⟨⟨σ₀, sg⟩, hmk, heq⟩ := h
    rw [Prod.mk.injEq] at heq
    obtain ⟨-, hls⟩ := heq
    subst hls
    intro s hs
    rcases List.mem_append.mp hs with hs | hs
    · exact hinv s hs
    · rw [List.mem_singleton] at hs
      subst hs
      exact sguardMkBlocking_dataRef hmk
  | newTry =>
    simp only [specStep] at h
    have h' := Option.some.inj h
    rw [Prod.mk.injEq] at h'
    obtain ⟨-, hls⟩ := h'
    subst hls
    intro s hs
    rcases List.mem_append.mp hs with hs | hs
    · exact hinv s hs
    · rw [List.mem_singleton] at hs
      subst hs
      exact sguardMkTry_dataRef σ i
  | relock k =>
    cases hk : ss[k]? with
    | none => simp only [specStep, hk] at h; exact absurd h (by simp)
    | some s0 =>
      simp only [specStep, hk, Option.map_eq_some'] at h
      obtain ⟨⟨σ₀, s1⟩, hsl, heq⟩ := h
      rw [Prod.mk.injEq] at heq
      obtain ⟨-, hls⟩ := heq
      subst hls
      intro s hs
      rcases List.mem_or_eq_of_mem_set hs with hs | rfl
      · exact hinv s hs
      · rw [sguardLock_dataRef hsl]
        exact hinv s0 (List.getElem?_mem hk)
  | retry k =>
    cases hk : ss[k]? with
    | none => simp only [specStep, hk] at h; exact absurd h (by simp)
    | some s0 =>
      simp only [specStep, hk, Option.map_eq_some'] at h
      obtain ⟨⟨σ₀, s1, b1⟩, hsl, heq⟩ := h
      rw [Prod.mk.injEq] at heq
      obtain ⟨-, hls⟩ := heq
      subst hls
      intro s hs
      rcases List.mem_or_eq_of_mem_set hs with hs | rfl
      · exact hinv s hs
      · rw [sguardTryLock_dataRef hsl]
        exact hinv s0 (List.getElem?_mem hk)
  | moveFrom k =>
    cases hk : ss[k]? with
    | none => simp only [specStep, hk] at h; exact absurd h (by simp)
    | some s0 =>
      simp only [specStep, hk] at h
      have h' := Option.some.inj h
      rw [Prod.mk.injEq] at h'
      obtain ⟨-, hls⟩ := h'
      subst hls
      intro s hs
      rcases List.mem_append.mp hs with hs | hs
      · rcases List.mem_or_eq_of_mem_set hs with hs | rfl
        · exact hinv s hs
        · show s0.dataRef = i
          exact hinv s0 (List.getElem?_mem hk)
      · rw [List.mem_singleton] at hs
        subst hs
        show s0.dataRef = i
        exact hinv s0 (List.getElem?_mem hk)
  | assignFrom tk sk =>
    by_cases hts : tk = sk
    · subst hts
      cases hk : ss[tk]? with
      | none => simp only [specStep, hk, if_pos rfl] at h; exact absurd h (by simp)
      | some s0 =>
        simp only [specStep, hk, if_pos rfl] at h
        have h' := Option.some.inj h
        rw [Prod.mk.injEq] at h'
        obtain ⟨-, hls⟩ := h'
        subst hls
        exact hinv
    · cases hkt : ss[tk]? with
      | none =>
        cases hks : ss[sk]? with
        | none => simp only [specStep, hkt, hks, if_neg hts] at h; exact absurd h (by simp)
        | some ssrc => simp only [specStep, hkt, hks, if_neg hts] at h; exact absurd h (by simp)
      | some st =>
        cases hks : ss[sk]? with
        | none => simp only [specStep, hkt, hks, if_neg hts] at h; exact absurd h (by simp)
        | some ssrc =>
          simp only [specStep, hkt, hks, if_neg hts] at h
          have h' := Option.some.inj h
          rw [Prod.mk.injEq] at h'
          obtain ⟨-, hls⟩ := h'
          subst hls
          intro s hs
          rcases List.mem_or_eq_of_mem_set hs with hs | rfl
          · rcases List.mem_or_eq_of_mem_set hs with hs | rfl
            · exact hinv s hs
            · show st.dataRef = i
              exact hinv st (List.getElem?_mem hkt)
          · show ssrc.dataRef = i
            exact hinv ssrc (List.getElem?_mem hks)
  | drop k =>
    cases hk : ss[k]? with
    | none => simp only [specStep, hk] at h; exact absurd h (by simp)
    | some s0 =>
      simp only [specStep, hk] at h
      have h' := Option.some.inj h
      rw [Prod.mk.injEq] at h'
      obtain ⟨-, hls⟩ := h'
      subst hls
      intro s hs
      exact hinv s (List.mem_of_mem_eraseIdx hs)

theorem runSim {n : Nat} {α : Type} (i : Fin n) :
    ∀ (ops : List SOp) (σ : MState n α) (ss : List (SGuard n)),
    (∀ s ∈ ss, s.dataRef = i) →
    genRun i ops σ (ss.map toGen) =
      (specRun i ops σ ss).map (fun p => (p.1, p.2.map toGen)) := by
  intro ops
  induction ops with
  | nil => intro σ ss _; rfl
  | cons op ops ih =>
    intro σ ss hinv
    simp only [genRun, specRun]
    rw [stepSim i op σ ss hinv]
    cases hstep : specStep i op σ ss with
    | none => rfl
    | some p =>
      obtain ⟨σ', ss'⟩ := p
      simp only [Option.map_some']
      exact ih σ' ss' (stepInv i op σ ss hinv hstep)

/-- Claim C8: over any single cell `i` and any sequence of public guard
operations (blocking and try construction, lock(), try_lock(), get_data(),
moves and destruction, addressed to any of the live guards), the N=1
specialization `rmutex_guard<T>` and the general variadic algorithms
instantiated with that one cell produce the same outcomes: the runs succeed or
fail identically, the resulting pool states are equal, every live guard
corresponds under `toGen`, ownership flags agree, and `get_data()` returns the
same protected value (as a one-element tuple on the variadic side). -/
theorem c8_single_cell_specialization_equivalence {n : Nat} {α : Type} (i : Fin n)
    (ops : List SOp) (σ : MState n α) :
    genRun i ops σ [] = (specRun i ops σ []).map (fun p => (p.1, p.2.map toGen)) ∧
    (∀ (σ₀ : MState n α) (ss₀ : List (SGuard n)),
      genObserve σ₀ (ss₀.map toGen) =
        (specObserve σ₀ ss₀).map (fun p => (p.1, p.2.map (fun a => [a])))) ∧
    (∀ s : SGuard n, (toGen s).ownsLocks = s.ownsLock) := by
  refine ⟨?_, ?_, fun s => rfl⟩
  · have h := runSim i ops σ [] (by intro s hs; exact absurd hs (by simp))
    simpa using h
  · intro σ₀ ss₀
    simp only [genObserve, specObserve, List.map_map]
    refine List.map_eq_map_iff.mpr ?_
    intro s hs
    show ((toGen s).ownsLocks, mguardGetData σ₀ (toGen s)) =
      (s.ownsLock, (sguardGetData σ₀ s).map (fun a => [a]))
    rw [mguardGetData_single]
    rfl

